import Mathlib

/-!
Verification of the Infura JSON-RPC middleware (brave-experiments/eth-json-rpc-infura).

The development shallowly embeds `src/index.js`: the JSON value model and the
`JSON.stringify` / `JSON.parse` pair used by `fetchConfigFromReq` and
`performFetch`, the `encodeURIComponent` / `decodeURIComponent` pair used for
GET query strings, the per-attempt fetch logic of `performFetch`, and the
retry loop of `createInfuraMiddleware`.  Strings are modelled as `List Char`,
JSON numbers as integers (the requests manipulated here carry ids and
quantities; float formatting is out of scope), and the mutable response
envelope as an explicitly threaded state value.
-/

/-- Characters of a string literal, used to write JS string constants. -/
def chars (s : String) : List Char := s.toList

/-- The double-quote character. -/
def quoteChar : Char := Char.ofNat 34

/-- The backslash character. -/
def backslashChar : Char := Char.ofNat 92

/-- The opening curly bracket character. -/
def lbraceChar : Char := Char.ofNat 123

/-- The closing curly bracket character. -/
def rbraceChar : Char := Char.ofNat 125

/-- The apostrophe character (unreserved for `encodeURIComponent`). -/
def aposChar : Char := Char.ofNat 39

/-- JSON values as manipulated by the middleware: the payload of requests and
responses.  Object fields are kept in insertion order, as `JSON.stringify`
emits them. -/
inductive Json where
  | null : Json
  | bool (b : Bool) : Json
  | num (n : Int) : Json
  | str (s : List Char) : Json
  | arr (elems : List Json) : Json
  | obj (fields : List (List Char × Json)) : Json

/-- Decimal digits of a natural number, least significant first. -/
def natDigitsRev (n : Nat) : List Char :=
  if h : n < 10 then [Char.ofNat (48 + n)]
  else Char.ofNat (48 + n % 10) :: natDigitsRev (n / 10)
decreasing_by exact Nat.div_lt_self (by omega) (by omega)

/-- Decimal representation of a natural number, most significant first. -/
def natChars (n : Nat) : List Char := (natDigitsRev n).reverse

/-- Decimal representation of an integer, as `JSON.stringify` prints an
integral number. -/
def intChars (n : Int) : List Char :=
  if n < 0 then '-' :: natChars n.natAbs else natChars n.natAbs

/-- Uppercase hexadecimal digit for a value below 16, as `encodeURIComponent`
emits percent escapes. -/
def hexDigitUpper (n : Nat) : Char :=
  if n < 10 then Char.ofNat (48 + n) else Char.ofNat (55 + n)

/-- Lowercase hexadecimal digit for a value below 16, as `JSON.stringify`
emits unicode escapes. -/
def hexDigitLower (n : Nat) : Char :=
  if n < 10 then Char.ofNat (48 + n) else Char.ofNat (87 + n)

/-- `JSON.stringify` escaping of a single character inside a string literal:
quote and backslash are escaped, control characters use the short escapes or
a `\u00XX` sequence, all other characters stand for themselves. -/
def escapeChar (c : Char) : List Char :=
  if c = quoteChar then [backslashChar, quoteChar]
  else if c = backslashChar then [backslashChar, backslashChar]
  else if c = Char.ofNat 8 then [backslashChar, 'b']
  else if c = Char.ofNat 9 then [backslashChar, 't']
  else if c = Char.ofNat 10 then [backslashChar, 'n']
  else if c = Char.ofNat 12 then [backslashChar, 'f']
  else if c = Char.ofNat 13 then [backslashChar, 'r']
  else if c.toNat < 32 then
    [backslashChar, 'u', '0', '0', hexDigitLower (c.toNat / 16), hexDigitLower (c.toNat % 16)]
  else [c]

/-- `JSON.stringify` escaping of a whole string body (without the outer
quotes). -/
def escapeString : List Char → List Char
  | [] => []
  | c :: cs => escapeChar c ++ escapeString cs

mutual

/-- `JSON.stringify` on a JSON value (no whitespace, insertion-ordered
object keys), as the middleware uses it to build request bodies and query
strings. -/
def jsonStringify : Json → List Char
  | .null => chars "null"
  | .bool true => chars "true"
  | .bool false => chars "false"
  | .num n => intChars n
  | .str s => quoteChar :: escapeString s ++ [quoteChar]
  | .arr [] => [ '[', ']' ]
  | .arr (e :: es) => '[' :: (jsonStringify e ++ stringifyElemsTail es) ++ [ ']' ]
  | .obj [] => [lbraceChar, rbraceChar]
  | .obj (f :: fs) =>
      lbraceChar :: (stringifyField f ++ stringifyFieldsTail fs) ++ [rbraceChar]

/-- Remaining array elements, each preceded by a comma. -/
def stringifyElemsTail : List Json → List Char
  | [] => []
  | e :: es => ',' :: jsonStringify e ++ stringifyElemsTail es

/-- One object field: quoted escaped key, colon, value. -/
def stringifyField : List Char × Json → List Char
  | (k, v) => quoteChar :: escapeString k ++ [quoteChar, ':'] ++ jsonStringify v

/-- Remaining object fields, each preceded by a comma. -/
def stringifyFieldsTail : List (List Char × Json) → List Char
  | [] => []
  | f :: fs => ',' :: stringifyField f ++ stringifyFieldsTail fs

end

/-- Decimal digit test on the code point, as `JSON.parse` recognises number
characters. -/
def isDigitChar (c : Char) : Bool := 48 ≤ c.toNat && c.toNat ≤ 57

/-- Value of a hexadecimal digit (both cases accepted). -/
def hexVal (c : Char) : Option Nat :=
  if 48 ≤ c.toNat ∧ c.toNat ≤ 57 then some (c.toNat - 48)
  else if 65 ≤ c.toNat ∧ c.toNat ≤ 70 then some (c.toNat - 55)
  else if 97 ≤ c.toNat ∧ c.toNat ≤ 102 then some (c.toNat - 87)
  else none

/-- Numeric value of a list of decimal digit characters, most significant
first. -/
def digitsVal (ds : List Char) : Nat :=
  ds.foldl (fun a c => 10 * a + (c.toNat - 48)) 0

/-- Parse the body of a JSON string literal (the opening quote already
consumed): returns the unescaped content and the remainder after the closing
quote. -/
def parseStringBody : List Char → Option (List Char × List Char)
  | [] => none
  | c :: rest =>
    if c = quoteChar then some ([], rest)
    else if c = backslashChar then
      match rest with
      | [] => none
      | e :: rest2 =>
        if e = quoteChar then
          (parseStringBody rest2).map (fun p => (quoteChar :: p.1, p.2))
        else if e = backslashChar then
          (parseStringBody rest2).map (fun p => (backslashChar :: p.1, p.2))
        else if e = 'b' then
          (parseStringBody rest2).map (fun p => (Char.ofNat 8 :: p.1, p.2))
        else if e = 't' then
          (parseStringBody rest2).map (fun p => (Char.ofNat 9 :: p.1, p.2))
        else if e = 'n' then
          (parseStringBody rest2).map (fun p => (Char.ofNat 10 :: p.1, p.2))
        else if e = 'f' then
          (parseStringBody rest2).map (fun p => (Char.ofNat 12 :: p.1, p.2))
        else if e = 'r' then
          (parseStringBody rest2).map (fun p => (Char.ofNat 13 :: p.1, p.2))
        else if e = 'u' then
          match rest2 with
          | h1 :: h2 :: h3 :: h4 :: rest3 =>
            match hexVal h1, hexVal h2, hexVal h3, hexVal h4 with
            | some v1, some v2, some v3, some v4 =>
              (parseStringBody rest3).map
                (fun p => (Char.ofNat (v1 * 4096 + v2 * 256 + v3 * 16 + v4) :: p.1, p.2))
            | _, _, _, _ => none
          | _ => none
        else none
    else (parseStringBody rest).map (fun p => (c :: p.1, p.2))

/-- Parse a JSON number (decimal integer, optional leading minus). -/
def parseNumberFrom : List Char → Option (Json × List Char)
  | [] => none
  | c :: r =>
    if c = '-' then
      let ds := r.takeWhile isDigitChar
      if ds = [] then none
      else some (.num (-(digitsVal ds : Int)), r.dropWhile isDigitChar)
    else
      let ds := (c :: r).takeWhile isDigitChar
      if ds = [] then none
      else some (.num (digitsVal ds), (c :: r).dropWhile isDigitChar)

mutual

/-- Fuel-driven recursive-descent parse of one JSON value, the model of
`JSON.parse` on the whitespace-free JSON this middleware produces and
receives.  Returns the value and the unconsumed remainder. -/
def parseValue : Nat → List Char → Option (Json × List Char)
  | 0, _ => none
  | fuel + 1, s =>
    match s with
    | [] => none
    | c :: rest =>
      if c = '-' ∨ isDigitChar c = true then parseNumberFrom (c :: rest)
      else if c = 'n' then
        match rest with
        | 'u' :: 'l' :: 'l' :: r => some (.null, r)
        | _ => none
      else if c = 't' then
        match rest with
        | 'r' :: 'u' :: 'e' :: r => some (.bool true, r)
        | _ => none
      else if c = 'f' then
        match rest with
        | 'a' :: 'l' :: 's' :: 'e' :: r => some (.bool false, r)
        | _ => none
      else if c = quoteChar then
        (parseStringBody rest).map (fun p => (.str p.1, p.2))
      else if c = '[' then
        if rest.head? = some ']' then some (.arr [], rest.tail)
        else (parseElems fuel rest).map (fun p => (.arr p.1, p.2))
      else if c = lbraceChar then
        if rest.head? = some rbraceChar then some (.obj [], rest.tail)
        else (parseFields fuel rest).map (fun p => (.obj p.1, p.2))
      else none
termination_by fuel _ => (fuel, 0)

/-- Parse a non-empty comma-separated list of values terminated by a closing
square bracket. -/
def parseElems : Nat → List Char → Option (List Json × List Char)
  | 0, _ => none
  | fuel + 1, s =>
    match parseValue (fuel + 1) s with
    | none => none
    | some (j, r) =>
      match r with
      | [] => none
      | d :: r2 =>
        if d = ',' then
          match parseElems fuel r2 with
          | none => none
          | some (js, r3) => some (j :: js, r3)
        else if d = ']' then some ([j], r2)
        else none
termination_by fuel _ => (fuel, 1)

/-- Parse a non-empty comma-separated list of string-keyed fields terminated
by a closing curly bracket. -/
def parseFields : Nat → List Char → Option (List (List Char × Json) × List Char)
  | 0, _ => none
  | fuel + 1, s =>
    match s with
    | [] => none
    | c :: rest =>
      if c = quoteChar then
        match parseStringBody rest with
        | none => none
        | some (k, r) =>
          match r with
          | [] => none
          | d0 :: r2 =>
            if d0 = ':' then
              match parseValue (fuel + 1) r2 with
              | none => none
              | some (v, r3) =>
                match r3 with
                | [] => none
                | d :: r4 =>
                  if d = ',' then
                    match parseFields fuel r4 with
                    | none => none
                    | some (fs, r5) => some ((k, v) :: fs, r5)
                  else if d = rbraceChar then some ([(k, v)], r4)
                  else none
            else none
      else none
termination_by fuel _ => (fuel, 2)

end

/-- `JSON.parse` on a complete input: the whole string must be consumed. -/
def jsonParse (s : List Char) : Option Json :=
  match parseValue (s.length + 1) s with
  | some (j, []) => some j
  | _ => none

theorem char_toNat_ofNat (n : Nat) (h : n < 55296) : (Char.ofNat n).toNat = n := by
  have hv : Nat.isValidChar n := Or.inl h
  unfold Char.ofNat
  simp only [hv, dite_true, Char.ofNatAux, Char.toNat]
  exact BitVec.toNat_ofNatLt ..

theorem natDigitsRev_eq (n : Nat) :
    natDigitsRev n =
      if n < 10 then [Char.ofNat (48 + n)]
      else Char.ofNat (48 + n % 10) :: natDigitsRev (n / 10) := by
  rw [natDigitsRev]
  split <;> simp [*]

theorem natChars_small (n : Nat) (h : n < 10) : natChars n = [Char.ofNat (48 + n)] := by
  simp [natChars, natDigitsRev_eq, h]

theorem natChars_large (n : Nat) (h : ¬ n < 10) :
    natChars n = natChars (n / 10) ++ [Char.ofNat (48 + n % 10)] := by
  rw [natChars, natDigitsRev_eq, if_neg h, List.reverse_cons, natChars]

theorem natChars_ne_nil (n : Nat) : natChars n ≠ [] := by
  by_cases h : n < 10
  · simp [natChars_small n h]
  · simp [natChars_large n h]

theorem digit_of_mem_natChars (n : Nat) :
    ∀ c ∈ natChars n, isDigitChar c = true := by
  induction n using Nat.strong_induction_on with
  | _ n ih =>
    by_cases h : n < 10
    · rw [natChars_small n h]
      intro c hc
      simp only [List.mem_singleton] at hc
      subst hc
      simp only [isDigitChar, char_toNat_ofNat (48 + n) (by omega)]
      simp only [Bool.and_eq_true, decide_eq_true_eq]
      omega
    · rw [natChars_large n h]
      intro c hc
      rcases List.mem_append.mp hc with h1 | h2
      · exact ih (n / 10) (Nat.div_lt_self (by omega) (by omega)) c h1
      · simp only [List.mem_singleton] at h2
        subst h2
        simp only [isDigitChar, char_toNat_ofNat (48 + n % 10) (by omega)]
        simp only [Bool.and_eq_true, decide_eq_true_eq]
        omega

theorem digitsVal_append_singleton (ds : List Char) (d : Char) :
    digitsVal (ds ++ [d]) = 10 * digitsVal ds + (d.toNat - 48) := by
  simp [digitsVal, List.foldl_append]

theorem digitsVal_natChars (n : Nat) : digitsVal (natChars n) = n := by
  induction n using Nat.strong_induction_on with
  | _ n ih =>
    by_cases h : n < 10
    · rw [natChars_small n h]
      simp [digitsVal, char_toNat_ofNat (48 + n) (by omega)]
    · rw [natChars_large n h, digitsVal_append_singleton,
        ih (n / 10) (Nat.div_lt_self (by omega) (by omega)),
        char_toNat_ofNat (48 + n % 10) (by omega)]
      omega

/-- Whether a character sequence does not begin with a decimal digit: the
side condition under which a serialized number followed by that sequence
parses back unambiguously. -/
def noDigitHead : List Char → Bool
  | [] => true
  | c :: _ => !(isDigitChar c)

theorem takeWhile_append_all {p : Char → Bool} (l r : List Char)
    (hl : ∀ c ∈ l, p c = true) (hr : r.takeWhile p = []) :
    (l ++ r).takeWhile p = l := by
  induction l with
  | nil => simpa using hr
  | cons a l ih =>
    have ha : p a = true := hl a (List.mem_cons_self a l)
    simp only [List.cons_append, List.takeWhile_cons, ha, if_true]
    rw [ih (fun c hc => hl c (List.mem_cons_of_mem a hc))]

theorem dropWhile_append_all {p : Char → Bool} (l r : List Char)
    (hl : ∀ c ∈ l, p c = true) (hr : r.takeWhile p = []) :
    (l ++ r).dropWhile p = r := by
  induction l with
  | nil =>
    simp only [List.nil_append]
    cases r with
    | nil => simp
    | cons c r =>
      simp only [List.takeWhile_cons] at hr
      split at hr
      · simp at hr
      · simp only [List.dropWhile_cons]
        simp_all
  | cons a l ih =>
    have ha : p a = true := hl a (List.mem_cons_self a l)
    simp only [List.cons_append, List.dropWhile_cons, ha, if_true]
    exact ih (fun c hc => hl c (List.mem_cons_of_mem a hc))

theorem takeWhile_digits_nil (r : List Char) (hr : noDigitHead r = true) :
    r.takeWhile isDigitChar = [] := by
  cases r with
  | nil => simp
  | cons c r =>
    simp only [noDigitHead, Bool.not_eq_true'] at hr
    simp [List.takeWhile_cons, hr]

theorem digit_ne_minus (c : Char) (h : isDigitChar c = true) : ¬ c = '-' := by
  intro he
  subst he
  simp [isDigitChar] at h

theorem parseNumberFrom_natChars (m : Nat) (rest : List Char)
    (hr : noDigitHead rest = true) :
    parseNumberFrom (natChars m ++ rest) = some (.num (m : Int), rest) := by
  obtain ⟨c, cs, hm⟩ : ∃ c cs, natChars m = c :: cs := by
    cases h : natChars m with
    | nil => exact absurd h (natChars_ne_nil m)
    | cons c cs => exact ⟨c, cs, rfl⟩
  have hdigits : ∀ x ∈ natChars m, isDigitChar x = true := digit_of_mem_natChars m
  have hc : isDigitChar c = true := hdigits c (by rw [hm]; exact List.mem_cons_self c cs)
  have htw : (natChars m ++ rest).takeWhile isDigitChar = natChars m :=
    takeWhile_append_all _ _ hdigits (takeWhile_digits_nil rest hr)
  have hdw : (natChars m ++ rest).dropWhile isDigitChar = rest :=
    dropWhile_append_all _ _ hdigits (takeWhile_digits_nil rest hr)
  rw [hm] at htw hdw ⊢
  simp only [List.cons_append, parseNumberFrom, digit_ne_minus c hc, if_false]
  rw [← List.cons_append, htw, hdw]
  simp [natChars_ne_nil, hm ▸ natChars_ne_nil m, digitsVal_natChars, hm]
  rw [← hm, digitsVal_natChars]

theorem hexVal_hexDigitLower (v : Nat) (h : v < 16) :
    hexVal (hexDigitLower v) = some v := by
  by_cases h10 : v < 10
  · simp only [hexDigitLower, if_pos h10, hexVal, char_toNat_ofNat (48 + v) (by omega)]
    rw [if_pos (by omega)]
    simp only [Option.some.injEq]
    omega
  · simp only [hexDigitLower, if_neg h10, hexVal, char_toNat_ofNat (87 + v) (by omega)]
    rw [if_neg (by omega), if_neg (by omega), if_pos (by omega)]
    simp only [Option.some.injEq]
    omega

theorem hexVal_hexDigitUpper (v : Nat) (h : v < 16) :
    hexVal (hexDigitUpper v) = some v := by
  by_cases h10 : v < 10
  · simp only [hexDigitUpper, if_pos h10, hexVal, char_toNat_ofNat (48 + v) (by omega)]
    rw [if_pos (by omega)]
    simp only [Option.some.injEq]
    omega
  · simp only [hexDigitUpper, if_neg h10, hexVal, char_toNat_ofNat (55 + v) (by omega)]
    rw [if_neg (by omega), if_pos (by omega)]
    simp only [Option.some.injEq]
    omega

theorem parseStringBody_escape (s rest : List Char) :
    parseStringBody (escapeString s ++ quoteChar :: rest) = some (s, rest) := by
  induction s with
  | nil =>
    simp only [escapeString, List.nil_append]
    unfold parseStringBody
    simp
  | cons c s ih =>
    simp only [escapeString, List.append_assoc]
    by_cases hq : c = quoteChar
    · subst hq
      simp only [escapeChar, if_pos rfl, List.cons_append, List.nil_append]
      unfold parseStringBody
      simp +decide [ih]
    · by_cases hb : c = backslashChar
      · subst hb
        simp +decide only [escapeChar, List.cons_append, List.nil_append, if_neg, if_pos]
        unfold parseStringBody
        simp +decide [ih]
      · by_cases h8 : c = Char.ofNat 8
        · subst h8
          simp +decide only [escapeChar, List.cons_append, List.nil_append, if_neg, if_pos]
          unfold parseStringBody
          simp +decide [ih]
        · by_cases h9 : c = Char.ofNat 9
          · subst h9
            simp +decide only [escapeChar, List.cons_append, List.nil_append, if_neg, if_pos]
            unfold parseStringBody
            simp +decide [ih]
          · by_cases h10 : c = Char.ofNat 10
            · subst h10
              simp +decide only [escapeChar, List.cons_append, List.nil_append, if_neg, if_pos]
              unfold parseStringBody
              simp +decide [ih]
            · by_cases h12 : c = Char.ofNat 12
              · subst h12
                simp +decide only [escapeChar, List.cons_append, List.nil_append, if_neg, if_pos]
                unfold parseStringBody
                simp +decide [ih]
              · by_cases h13 : c = Char.ofNat 13
                · subst h13
                  simp +decide only [escapeChar, List.cons_append, List.nil_append, if_neg, if_pos]
                  unfold parseStringBody
                  simp +decide [ih]
                · by_cases hctl : c.toNat < 32
                  · simp only [escapeChar, if_neg hq, if_neg hb, if_neg h8, if_neg h9,
                      if_neg h10, if_neg h12, if_neg h13, if_pos hctl, List.cons_append,
                      List.nil_append]
                    unfold parseStringBody
                    simp +decide only [if_neg, if_pos, reduceIte]
                    rw [hexVal_hexDigitLower (c.toNat / 16) (by omega),
                      hexVal_hexDigitLower (c.toNat % 16) (by omega),
                      show hexVal '0' = some 0 from by decide]
                    have harith : 0 * 4096 + 0 * 256 + c.toNat / 16 * 16 + c.toNat % 16
                        = c.toNat := by omega
                    simp only [harith, Char.ofNat_toNat, ih]
                    rfl
                  · simp only [escapeChar, if_neg hq, if_neg hb, if_neg h8, if_neg h9,
                      if_neg h10, if_neg h12, if_neg h13, if_neg hctl, List.cons_append,
                      List.nil_append]
                    unfold parseStringBody
                    simp only [if_neg hq, if_neg hb, ih]
                    rfl

theorem chars_null : chars "null" = ['n', 'u', 'l', 'l'] := by decide

theorem chars_true : chars "true" = ['t', 'r', 'u', 'e'] := by decide

theorem chars_false : chars "false" = ['f', 'a', 'l', 's', 'e'] := by decide

theorem intChars_head (n : Int) :
    ∃ c cs, intChars n = c :: cs ∧ (c = '-' ∨ isDigitChar c = true) := by
  by_cases hneg : n < 0
  · exact ⟨'-', natChars n.natAbs, by simp [intChars, hneg], Or.inl rfl⟩
  · obtain ⟨c, cs, hm⟩ : ∃ c cs, natChars n.natAbs = c :: cs := by
      cases h : natChars n.natAbs with
      | nil => exact absurd h (natChars_ne_nil n.natAbs)
      | cons c cs => exact ⟨c, cs, rfl⟩
    refine ⟨c, cs, by simp [intChars, hneg, hm], Or.inr ?_⟩
    exact digit_of_mem_natChars n.natAbs c (by rw [hm]; exact List.mem_cons_self c cs)

theorem parseNumberFrom_intChars (n : Int) (rest : List Char)
    (hr : noDigitHead rest = true) :
    parseNumberFrom (intChars n ++ rest) = some (.num n, rest) := by
  by_cases hneg : n < 0
  · have : intChars n = '-' :: natChars n.natAbs := by simp [intChars, hneg]
    rw [this]
    have htw : (natChars n.natAbs ++ rest).takeWhile isDigitChar = natChars n.natAbs :=
      takeWhile_append_all _ _ (digit_of_mem_natChars _) (takeWhile_digits_nil rest hr)
    have hdw : (natChars n.natAbs ++ rest).dropWhile isDigitChar = rest :=
      dropWhile_append_all _ _ (digit_of_mem_natChars _) (takeWhile_digits_nil rest hr)
    simp only [List.cons_append, parseNumberFrom, if_pos rfl, htw, hdw,
      natChars_ne_nil n.natAbs, if_neg (natChars_ne_nil n.natAbs)]
    rw [digitsVal_natChars]
    have h2 : -((n.natAbs : Int)) = n := by omega
    simp only [h2]
    simp
  · have : intChars n = natChars n.natAbs := by simp [intChars, hneg]
    rw [this, parseNumberFrom_natChars n.natAbs rest hr]
    have h2 : ((n.natAbs : Int)) = n := by omega
    simp only [h2]

theorem stringify_length_pos (j : Json) : 0 < (jsonStringify j).length := by
  cases j with
  | null => rw [jsonStringify, chars_null]; simp
  | bool b => cases b <;> rw [jsonStringify] <;> simp +decide [chars_true, chars_false]
  | num n =>
    rw [jsonStringify]
    obtain ⟨c, cs, hm, _⟩ := intChars_head n
    simp [hm]
  | str s => rw [jsonStringify]; simp
  | arr es => cases es <;> rw [jsonStringify] <;> simp
  | obj fs => cases fs <;> rw [jsonStringify] <;> simp

theorem digit_ne_rbracket (c : Char) (h : isDigitChar c = true) : ¬ c = ']' := by
  intro he
  subst he
  simp [isDigitChar] at h

theorem stringify_head_ne_rbracket (j : Json) (r : List Char) :
    ¬ ((jsonStringify j ++ r).head? = some ']') := by
  cases j with
  | null => rw [jsonStringify, chars_null]; simp +decide
  | bool b => cases b <;> rw [jsonStringify] <;> simp +decide [chars_true, chars_false]
  | num n =>
    rw [jsonStringify]
    obtain ⟨c, cs, hm, hc⟩ := intChars_head n
    rw [hm]
    simp only [List.cons_append, List.head?_cons, Option.some.injEq]
    intro he
    subst he
    rcases hc with h | h
    · simp at h
    · exact digit_ne_rbracket _ h rfl
  | str s => rw [jsonStringify]; simp +decide
  | arr es => cases es <;> rw [jsonStringify] <;> simp +decide
  | obj fs => cases fs <;> rw [jsonStringify] <;> simp +decide

theorem noDigitHead_elemsTail (es : List Json) (rest : List Char) :
    noDigitHead (stringifyElemsTail es ++ ']' :: rest) = true := by
  cases es <;> simp +decide [stringifyElemsTail, noDigitHead, isDigitChar]

theorem noDigitHead_fieldsTail (fs : List (List Char × Json)) (rest : List Char) :
    noDigitHead (stringifyFieldsTail fs ++ rbraceChar :: rest) = true := by
  cases fs <;> simp +decide [stringifyFieldsTail, noDigitHead, isDigitChar]


mutual

/-- Node-count measure on a JSON value, driving the round-trip induction. -/
def jsonSizeM : Json → Nat
  | .null => 1
  | .bool _ => 1
  | .num _ => 1
  | .str _ => 1
  | .arr [] => 1
  | .arr (e :: es) => 1 + jsonSizeM e + elemsSizeM es
  | .obj [] => 1
  | .obj (f :: fs) => 1 + fieldSizeM f + fieldsSizeM fs

/-- Measure of a list of array elements. -/
def elemsSizeM : List Json → Nat
  | [] => 1
  | e :: es => 1 + jsonSizeM e + elemsSizeM es

/-- Measure of one object field. -/
def fieldSizeM : List Char × Json → Nat
  | (_, v) => 1 + jsonSizeM v

/-- Measure of a list of object fields. -/
def fieldsSizeM : List (List Char × Json) → Nat
  | [] => 1
  | f :: fs => 1 + fieldSizeM f + fieldsSizeM fs

end

theorem jsonSizeM_pos (j : Json) : 1 ≤ jsonSizeM j := by
  cases j with
  | null => simp [jsonSizeM]
  | bool b => simp [jsonSizeM]
  | num n => simp [jsonSizeM]
  | str s => simp [jsonSizeM]
  | arr es => cases es <;> simp [jsonSizeM] <;> omega
  | obj fs => cases fs <;> simp [jsonSizeM] <;> omega

theorem elemsSizeM_pos (es : List Json) : 1 ≤ elemsSizeM es := by
  cases es <;> simp [elemsSizeM] <;> omega

theorem fieldsSizeM_pos (fs : List (List Char × Json)) : 1 ≤ fieldsSizeM fs := by
  cases fs <;> simp [fieldsSizeM] <;> omega

theorem parse_stringify_all (N : Nat) :
    (∀ j fuel rest, jsonSizeM j ≤ N → (jsonStringify j ++ rest).length < fuel →
        noDigitHead rest = true →
        parseValue fuel (jsonStringify j ++ rest) = some (j, rest))
    ∧ (∀ e es fuel rest, jsonSizeM e + elemsSizeM es ≤ N →
        (jsonStringify e ++ (stringifyElemsTail es ++ ']' :: rest)).length < fuel →
        parseElems fuel (jsonStringify e ++ (stringifyElemsTail es ++ ']' :: rest))
          = some (e :: es, rest))
    ∧ (∀ k v fs fuel rest, jsonSizeM v + fieldsSizeM fs ≤ N →
        (stringifyField (k, v) ++ (stringifyFieldsTail fs ++ rbraceChar :: rest)).length < fuel →
        parseFields fuel (stringifyField (k, v) ++ (stringifyFieldsTail fs ++ rbraceChar :: rest))
          = some ((k, v) :: fs, rest)) := by
  induction N using Nat.strong_induction_on with
  | _ N ih =>
    refine ⟨?_, ?_, ?_⟩
    · intro j fuel rest hN hf hr
      cases fuel with
      | zero => simp at hf
      | succ f =>
        cases j with
        | null =>
          rw [jsonStringify, chars_null]
          unfold parseValue
          simp +decide
        | bool b =>
          cases b with
          | false =>
            rw [jsonStringify, chars_false]
            unfold parseValue
            simp +decide
          | true =>
            rw [jsonStringify, chars_true]
            unfold parseValue
            simp +decide
        | num n =>
          rw [jsonStringify]
          obtain ⟨c, cs, hm, hc⟩ := intChars_head n
          rw [hm, List.cons_append]
          unfold parseValue
          simp only [if_pos hc]
          rw [← List.cons_append, ← hm]
          exact parseNumberFrom_intChars n rest hr
        | str s =>
          rw [jsonStringify]
          have heq : (quoteChar :: escapeString s ++ [quoteChar]) ++ rest
              = quoteChar :: (escapeString s ++ quoteChar :: rest) := by simp
          rw [heq]
          unfold parseValue
          simp +decide [parseStringBody_escape]
        | arr es =>
          cases es with
          | nil =>
            rw [jsonStringify]
            unfold parseValue
            simp +decide
          | cons e es =>
            rw [jsonStringify] at hf ⊢
            have heq : ('[' :: (jsonStringify e ++ stringifyElemsTail es) ++ [ ']' ]) ++ rest
                = '[' :: (jsonStringify e ++ (stringifyElemsTail es ++ ']' :: rest)) := by simp
            rw [heq]
            rw [heq] at hf
            unfold parseValue
            have hhd := stringify_head_ne_rbracket e (stringifyElemsTail es ++ ']' :: rest)
            have hlen : (jsonStringify e ++ (stringifyElemsTail es ++ ']' :: rest)).length < f := by
              simp only [List.length_cons] at hf
              omega
            have hsz : jsonSizeM e + elemsSizeM es < N := by
              rw [jsonSizeM] at hN
              omega
            have helems := (ih _ hsz).2.1 e es f rest le_rfl hlen
            simp +decide only [hhd, reduceIte, helems]
            rfl
        | obj fs =>
          cases fs with
          | nil =>
            rw [jsonStringify]
            unfold parseValue
            simp +decide
          | cons f0 fs =>
            obtain ⟨k0, v0⟩ := f0
            rw [jsonStringify] at hf ⊢
            have heq : (lbraceChar :: (stringifyField (k0, v0) ++ stringifyFieldsTail fs)
                  ++ [rbraceChar]) ++ rest
                = lbraceChar :: (stringifyField (k0, v0)
                  ++ (stringifyFieldsTail fs ++ rbraceChar :: rest)) := by
              simp
            rw [heq]
            rw [heq] at hf
            unfold parseValue
            have hhd : ¬ ((stringifyField (k0, v0)
                ++ (stringifyFieldsTail fs ++ rbraceChar :: rest)).head? = some rbraceChar) := by
              rw [stringifyField]
              simp +decide
            have hlen : (stringifyField (k0, v0)
                ++ (stringifyFieldsTail fs ++ rbraceChar :: rest)).length < f := by
              simp only [List.length_cons] at hf
              omega
            have hsz : jsonSizeM v0 + fieldsSizeM fs < N := by
              rw [jsonSizeM, fieldSizeM] at hN
              omega
            have hfields := (ih _ hsz).2.2 k0 v0 fs f rest le_rfl hlen
            simp +decide only [hhd, reduceIte, hfields]
            rfl
    · intro e es fuel rest hN hf
      cases fuel with
      | zero => simp at hf
      | succ f =>
        unfold parseElems
        have hsze : jsonSizeM e < N := by
          have := elemsSizeM_pos es
          omega
        have hval := (ih _ hsze).1 e (f + 1) _ le_rfl hf (noDigitHead_elemsTail es rest)
        rw [hval]
        cases es with
        | nil =>
          simp +decide only [stringifyElemsTail, List.nil_append, reduceIte]
        | cons e2 es2 =>
          have hlen : (jsonStringify e2 ++ (stringifyElemsTail es2 ++ ']' :: rest)).length < f := by
            have h1 := stringify_length_pos e
            simp only [stringifyElemsTail, List.length_append, List.length_cons,
              List.cons_append] at hf ⊢
            omega
          have hsz2 : jsonSizeM e2 + elemsSizeM es2 < N := by
            rw [elemsSizeM] at hN
            have := jsonSizeM_pos e
            omega
          have helems := (ih _ hsz2).2.1 e2 es2 f rest le_rfl hlen
          simp +decide only [stringifyElemsTail, List.cons_append, List.append_assoc, reduceIte,
            helems]
    · intro k v fs fuel rest hN hf
      cases fuel with
      | zero => simp at hf
      | succ f =>
        rw [stringifyField] at hf ⊢
        have heq : (quoteChar :: escapeString k ++ [quoteChar, ':'] ++ jsonStringify v)
              ++ (stringifyFieldsTail fs ++ rbraceChar :: rest)
            = quoteChar :: (escapeString k
                ++ quoteChar :: ':' :: (jsonStringify v
                  ++ (stringifyFieldsTail fs ++ rbraceChar :: rest))) := by
          simp
        rw [heq]
        rw [heq] at hf
        unfold parseFields
        have hszv : jsonSizeM v < N := by
          have := fieldsSizeM_pos fs
          omega
        cases fs with
        | nil =>
          have hsb := parseStringBody_escape k (':' :: (jsonStringify v ++ rbraceChar :: rest))
          have hlen : (jsonStringify v ++ rbraceChar :: rest).length < f + 1 := by
            simp only [stringifyFieldsTail, List.nil_append, List.length_cons,
              List.length_append] at hf ⊢
            omega
          have hv := (ih _ hszv).1 v (f + 1) (rbraceChar :: rest) le_rfl hlen
            (by simp +decide [noDigitHead])
          simp +decide only [stringifyFieldsTail, List.nil_append, reduceIte, hsb, hv]
        | cons f2 fs2 =>
          obtain ⟨k2, v2⟩ := f2
          have htail : stringifyFieldsTail ((k2, v2) :: fs2) ++ rbraceChar :: rest
              = ',' :: (stringifyField (k2, v2)
                  ++ (stringifyFieldsTail fs2 ++ rbraceChar :: rest)) := by
            simp [stringifyFieldsTail]
          rw [htail]
          rw [htail] at hf
          have hsb := parseStringBody_escape k (':' :: (jsonStringify v
            ++ ',' :: (stringifyField (k2, v2) ++ (stringifyFieldsTail fs2 ++ rbraceChar :: rest))))
          have hlen : (jsonStringify v
              ++ ',' :: (stringifyField (k2, v2)
                ++ (stringifyFieldsTail fs2 ++ rbraceChar :: rest))).length < f + 1 := by
            simp only [List.length_cons, List.length_append] at hf ⊢
            omega
          have hv := (ih _ hszv).1 v (f + 1)
            (',' :: (stringifyField (k2, v2) ++ (stringifyFieldsTail fs2 ++ rbraceChar :: rest)))
            le_rfl hlen (by simp +decide [noDigitHead])
          have hlen2 : (stringifyField (k2, v2)
              ++ (stringifyFieldsTail fs2 ++ rbraceChar :: rest)).length < f := by
            have h1 := stringify_length_pos v
            simp only [List.length_cons, List.length_append] at hf ⊢
            omega
          have hsz2 : jsonSizeM v2 + fieldsSizeM fs2 < N := by
            rw [fieldsSizeM, fieldSizeM] at hN
            have := jsonSizeM_pos v
            omega
          have hfields := (ih _ hsz2).2.2 k2 v2 fs2 f rest le_rfl hlen2
          simp +decide only [reduceIte, hsb, hv, hfields]

theorem parseValue_stringify (j : Json) (fuel : Nat) (rest : List Char)
    (hf : (jsonStringify j ++ rest).length < fuel) (hr : noDigitHead rest = true) :
    parseValue fuel (jsonStringify j ++ rest) = some (j, rest) :=
  (parse_stringify_all (jsonSizeM j)).1 j fuel rest le_rfl hf hr

/-- The parser is a left inverse of the serializer: `JSON.parse` recovers any
value `JSON.stringify` produced. -/
theorem jsonParse_stringify (j : Json) : jsonParse (jsonStringify j) = some j := by
  unfold jsonParse
  have h := parseValue_stringify j ((jsonStringify j).length + 1) []
    (by simp) (by simp [noDigitHead])
  rw [List.append_nil] at h
  rw [h]

theorem char_toNat_lt (c : Char) : c.toNat < 1114112 := by
  have := c.valid
  simp [UInt32.isValidChar, Nat.isValidChar] at this
  rcases this with h | h
  · simp [Char.toNat]; omega
  · simp [Char.toNat]; omega

/-- The characters `encodeURIComponent` leaves unescaped: ASCII letters,
digits, and `- _ . ! ~ * ' ( )`. -/
def unreservedChar (c : Char) : Bool :=
  c.isAlpha || c.isDigit || c = '-' || c = '_' || c = '.' || c = '!'
    || c = '~' || c = '*' || c = aposChar || c = '(' || c = ')'

/-- UTF-8 bytes of a code point, as `encodeURIComponent` derives the bytes
it percent-escapes. -/
def utf8Bytes (n : Nat) : List Nat :=
  if n < 128 then [n]
  else if n < 2048 then [192 + n / 64, 128 + n % 64]
  else if n < 65536 then [224 + n / 4096, 128 + (n / 64) % 64, 128 + n % 64]
  else [240 + n / 262144, 128 + (n / 4096) % 64, 128 + (n / 64) % 64, 128 + n % 64]

/-- Percent escape of one byte, uppercase hexadecimal. -/
def pctEncodeByte (b : Nat) : List Char :=
  ['%', hexDigitUpper (b / 16), hexDigitUpper (b % 16)]

/-- Percent escapes of a byte sequence. -/
def pctBytes : List Nat → List Char
  | [] => []
  | b :: bs => pctEncodeByte b ++ pctBytes bs

/-- `encodeURIComponent` on one character. -/
def encChar (c : Char) : List Char :=
  if unreservedChar c then [c] else pctBytes (utf8Bytes c.toNat)

/-- `encodeURIComponent`: unreserved characters pass through, all others are
percent-escaped byte-wise. -/
def encodeURIComponent : List Char → List Char
  | [] => []
  | c :: cs => encChar c ++ encodeURIComponent cs

/-- Read one percent escape (`%XY`) at the head of the input, returning the
byte value. -/
def pctByteAt : List Char → Option Nat
  | p :: h1 :: h2 :: _ =>
    if p = '%' then
      match hexVal h1, hexVal h2 with
      | some v1, some v2 => some (16 * v1 + v2)
      | _, _ => none
    else none
  | _ => none

/-- `decodeURIComponent` on the encodings this middleware produces: percent
escapes are decoded byte-wise and reassembled according to their UTF-8 length,
all other characters pass through; malformed input yields `none` (the JS
function throws `URIError`). -/
def decodeURIComponent : List Char → Option (List Char)
  | [] => some []
  | c :: rest =>
    if c = '%' then
      match pctByteAt (c :: rest) with
      | none => none
      | some b =>
        if b < 128 then (decodeURIComponent (rest.drop 2)).map (fun s => Char.ofNat b :: s)
        else if b < 192 then none
        else if b < 224 then
          match pctByteAt (rest.drop 2) with
          | none => none
          | some b2 =>
            if 128 ≤ b2 ∧ b2 < 192 then
              (decodeURIComponent (rest.drop 5)).map
                (fun s => Char.ofNat ((b - 192) * 64 + (b2 - 128)) :: s)
            else none
        else if b < 240 then
          match pctByteAt (rest.drop 2), pctByteAt (rest.drop 5) with
          | some b2, some b3 =>
            if (128 ≤ b2 ∧ b2 < 192) ∧ (128 ≤ b3 ∧ b3 < 192) then
              (decodeURIComponent (rest.drop 8)).map
                (fun s => Char.ofNat ((b - 224) * 4096 + (b2 - 128) * 64 + (b3 - 128)) :: s)
            else none
          | _, _ => none
        else
          match pctByteAt (rest.drop 2), pctByteAt (rest.drop 5), pctByteAt (rest.drop 8) with
          | some b2, some b3, some b4 =>
            if (128 ≤ b2 ∧ b2 < 192) ∧ (128 ≤ b3 ∧ b3 < 192) ∧ (128 ≤ b4 ∧ b4 < 192) then
              (decodeURIComponent (rest.drop 11)).map
                (fun s => Char.ofNat ((b - 240) * 262144 + (b2 - 128) * 4096
                  + (b3 - 128) * 64 + (b4 - 128)) :: s)
            else none
          | _, _, _ => none
    else (decodeURIComponent rest).map (fun s => c :: s)
termination_by s => s.length
decreasing_by
  all_goals simp only [List.length_cons, List.length_drop]
  all_goals omega

theorem pctByteAt_encode (b : Nat) (hb : b < 256) (t : List Char) :
    pctByteAt ('%' :: hexDigitUpper (b / 16) :: hexDigitUpper (b % 16) :: t) = some b := by
  unfold pctByteAt
  simp only [reduceIte, hexVal_hexDigitUpper (b / 16) (by omega),
    hexVal_hexDigitUpper (b % 16) (by omega), Option.some.injEq]
  omega

theorem decode_pct1 (n : Nat) (h1 : n < 128) (rest : List Char) :
    decodeURIComponent (pctBytes (utf8Bytes n) ++ rest)
      = (decodeURIComponent rest).map (fun s => Char.ofNat n :: s) := by
  rw [utf8Bytes, if_pos h1]
  simp only [pctBytes, pctEncodeByte, List.cons_append, List.nil_append]
  conv_lhs => unfold decodeURIComponent
  simp only [reduceIte, pctByteAt_encode n (by omega), List.drop_succ_cons, List.drop_zero,
    if_pos h1]

theorem decode_pct2 (n : Nat) (h1 : 128 ≤ n) (h2 : n < 2048) (rest : List Char) :
    decodeURIComponent (pctBytes (utf8Bytes n) ++ rest)
      = (decodeURIComponent rest).map (fun s => Char.ofNat n :: s) := by
  rw [utf8Bytes, if_neg (by omega), if_pos h2]
  simp only [pctBytes, pctEncodeByte, List.cons_append, List.nil_append]
  conv_lhs => unfold decodeURIComponent
  simp only [reduceIte, pctByteAt_encode (192 + n / 64) (by omega),
    pctByteAt_encode (128 + n % 64) (by omega), List.drop_succ_cons, List.drop_zero,
    if_neg (show ¬ (192 + n / 64 < 128) by omega),
    if_neg (show ¬ (192 + n / 64 < 192) by omega),
    if_pos (show 192 + n / 64 < 224 by omega),
    if_pos (show 128 ≤ 128 + n % 64 ∧ 128 + n % 64 < 192 by omega)]
  have hn : (192 + n / 64 - 192) * 64 + (128 + n % 64 - 128) = n := by omega
  rw [hn]

theorem decode_pct3 (n : Nat) (h1 : 2048 ≤ n) (h2 : n < 65536) (rest : List Char) :
    decodeURIComponent (pctBytes (utf8Bytes n) ++ rest)
      = (decodeURIComponent rest).map (fun s => Char.ofNat n :: s) := by
  rw [utf8Bytes, if_neg (by omega), if_neg (by omega), if_pos h2]
  simp only [pctBytes, pctEncodeByte, List.cons_append, List.nil_append]
  conv_lhs => unfold decodeURIComponent
  simp only [reduceIte, pctByteAt_encode (224 + n / 4096) (by omega),
    pctByteAt_encode (128 + n / 64 % 64) (by omega),
    pctByteAt_encode (128 + n % 64) (by omega), List.drop_succ_cons, List.drop_zero,
    if_neg (show ¬ (224 + n / 4096 < 128) by omega),
    if_neg (show ¬ (224 + n / 4096 < 192) by omega),
    if_neg (show ¬ (224 + n / 4096 < 224) by omega),
    if_pos (show 224 + n / 4096 < 240 by omega),
    if_pos (show (128 ≤ 128 + n / 64 % 64 ∧ 128 + n / 64 % 64 < 192)
      ∧ (128 ≤ 128 + n % 64 ∧ 128 + n % 64 < 192) by omega)]
  have hn : (224 + n / 4096 - 224) * 4096 + (128 + n / 64 % 64 - 128) * 64
      + (128 + n % 64 - 128) = n := by omega
  rw [hn]

theorem decode_pct4 (n : Nat) (h1 : 65536 ≤ n) (h2 : n < 1114112) (rest : List Char) :
    decodeURIComponent (pctBytes (utf8Bytes n) ++ rest)
      = (decodeURIComponent rest).map (fun s => Char.ofNat n :: s) := by
  rw [utf8Bytes, if_neg (by omega), if_neg (by omega), if_neg (by omega)]
  simp only [pctBytes, pctEncodeByte, List.cons_append, List.nil_append]
  conv_lhs => unfold decodeURIComponent
  simp only [reduceIte, pctByteAt_encode (240 + n / 262144) (by omega),
    pctByteAt_encode (128 + n / 4096 % 64) (by omega),
    pctByteAt_encode (128 + n / 64 % 64) (by omega),
    pctByteAt_encode (128 + n % 64) (by omega), List.drop_succ_cons, List.drop_zero,
    if_neg (show ¬ (240 + n / 262144 < 128) by omega),
    if_neg (show ¬ (240 + n / 262144 < 192) by omega),
    if_neg (show ¬ (240 + n / 262144 < 224) by omega),
    if_neg (show ¬ (240 + n / 262144 < 240) by omega),
    if_pos (show (128 ≤ 128 + n / 4096 % 64 ∧ 128 + n / 4096 % 64 < 192)
      ∧ (128 ≤ 128 + n / 64 % 64 ∧ 128 + n / 64 % 64 < 192)
      ∧ (128 ≤ 128 + n % 64 ∧ 128 + n % 64 < 192) by omega)]
  have hn : (240 + n / 262144 - 240) * 262144 + (128 + n / 4096 % 64 - 128) * 4096
      + (128 + n / 64 % 64 - 128) * 64 + (128 + n % 64 - 128) = n := by omega
  rw [hn]

theorem unreserved_ne_pct (c : Char) (h : unreservedChar c = true) : ¬ c = '%' := by
  intro he
  subst he
  simp +decide [unreservedChar] at h

/-- `decodeURIComponent` undoes `encodeURIComponent` (round trip on the
encoder image). -/
theorem decode_encode (s : List Char) :
    decodeURIComponent (encodeURIComponent s) = some s := by
  induction s with
  | nil =>
    rw [show encodeURIComponent [] = [] from rfl]
    unfold decodeURIComponent
    rfl
  | cons c cs ih =>
    rw [encodeURIComponent]
    by_cases hu : unreservedChar c
    · rw [encChar, if_pos hu, List.cons_append, List.nil_append]
      unfold decodeURIComponent
      rw [if_neg (unreserved_ne_pct c hu), ih]
      rfl
    · rw [encChar, if_neg hu]
      have hlt := char_toNat_lt c
      by_cases r1 : c.toNat < 128
      · rw [decode_pct1 c.toNat r1 _, ih, Char.ofNat_toNat]
        rfl
      · by_cases r2 : c.toNat < 2048
        · rw [decode_pct2 c.toNat (by omega) r2 _, ih, Char.ofNat_toNat]
          rfl
        · by_cases r3 : c.toNat < 65536
          · rw [decode_pct3 c.toNat (by omega) r3 _, ih, Char.ofNat_toNat]
            rfl
          · rw [decode_pct4 c.toNat (by omega) (by omega) _, ih, Char.ofNat_toNat]
            rfl

/-- An inbound JSON-RPC request as the spec's data model defines it
(`src/index.js` reads exactly these fields): `id`, `jsonrpc`, `method`,
`params` always present, an optional `origin`, plus any extra fields the
caller attached (they are stripped by normalization). -/
structure Req where
  id : Json
  jsonrpc : Json
  method : List Char
  params : Json
  origin : Option (List Char)
  extras : List (List Char × Json)

/-- The mutable response envelope: `result` and `error`, where `none` models
a field that is absent / `undefined`. -/
structure Res where
  result : Option Json
  error : Option Json

/-- One HTTP response as seen by `performFetch`: its status code and the full
body text (`response.ok` is statuses 200-299, per the fetch standard). -/
structure HttpResponse where
  status : Nat
  body : List Char

/-- `response.ok` of the fetch API. -/
def responseOk (r : HttpResponse) : Bool :=
  200 ≤ r.status && r.status ≤ 299

/-- The failure values thrown inside the middleware.
`methodNotFound` models `rpcErrors.methodNotFound()`, `internal msg` models
`createInternalError(msg)` (a JSON-RPC internal error wrapping
`new Error(msg)`), `syntaxError msg` models the `SyntaxError` thrown by
`JSON.parse` on a malformed body, and `plain msg` models `new Error(msg)`
(used for the exhausted-retries error and for transport-level failures such
as socket timeouts). -/
inductive JsErr where
  | methodNotFound
  | internal (msg : List Char)
  | syntaxError (msg : List Char)
  | plain (msg : List Char)

/-- Modelled from the spec: the string form (`err.toString()`) of each
failure value.  The error classes live in the external `eth-json-rpc-errors`
and `json-rpc-error` packages (spec section 1 treats them as injected
dependencies); per the JS `Error.prototype.toString` contract the string is
`name: message`, and the spec requires the thrown messages to appear in the
string form (section 4.3, 4.4: the gateway-timeout message and the raw body
text take part in phrase matching; a parse failure surfaces as a
`SyntaxError`). -/
def jsErrToString : JsErr → List Char
  | .methodNotFound => chars "Error: Method not found"
  | .internal m => chars "Error: " ++ m
  | .syntaxError m => chars "SyntaxError: " ++ m
  | .plain m => chars "Error: " ++ m

/-- The fixed retriable phrases of `src/index.js` lines 11-16. -/
def RETRIABLE_ERRORS : List (List Char) :=
  [chars "Gateway timeout", chars "ETIMEDOUT", chars "ECONNRESET", chars "SyntaxError"]

/-- `RETRIABLE_ERRORS.some(phrase => err.toString().includes(phrase))`
(`src/index.js` line 33): case-sensitive substring containment against the
failure's string form. -/
def canRetry (e : JsErr) : Bool :=
  RETRIABLE_ERRORS.any (fun phrase => decide (phrase <:+: jsErrToString e))

/-- JS member access `data.key` on a parsed JSON value: a field lookup on an
object, `undefined` (`none`) on anything else. -/
def jsonGet (j : Json) (k : List Char) : Option Json :=
  match j with
  | .obj fs => (fs.find? (fun kv => decide (kv.1 = k))).map (fun kv => kv.2)
  | _ => none

/-- One attempt of `performFetch` (`src/index.js` lines 56-86) given the HTTP
response of this attempt, with the response envelope threaded explicitly: the
first component is normal return versus thrown failure, the second is the
envelope state when control leaves the function (JS mutations persist even
past a `throw`, so the state is returned on every path).  `JSON.parse` is a
parameter because it is a JS builtin external to the file; its failure
message is irrelevant to the middleware, only the `SyntaxError` class
matters. -/
def performFetchRun (parse : List Char → Option Json) (req : Req) (resp : HttpResponse)
    (res : Res) : Except JsErr Unit × Res :=
  if responseOk resp = false then
    match resp.status with
    | 405 => (.error .methodNotFound, res)
    | 418 => (.error (.internal (chars "Request is being rate limited.")), res)
    | 503 => (.error (.internal (chars "Gateway timeout, request took too long to process.")), res)
    | 504 => (.error (.internal (chars "Gateway timeout, request took too long to process.")), res)
    | _ => (.error (.internal resp.body), res)
  else if req.method = chars "eth_getBlockByNumber" ∧ resp.body = chars "Not Found" then
    (.ok (), { res with result := some Json.null })
  else
    match parse resp.body with
    | none => (.error (.syntaxError (chars "Unexpected token")), res)
    | some data =>
      let res1 := { res with result := jsonGet data (chars "result") }
      let res2 := { res1 with error := jsonGet data (chars "error") }
      (.ok (), res2)

/-- The normalized request (`cleanReq`, `src/index.js` lines 94-99) as a JSON
object: exactly the four fields `id`, `jsonrpc`, `method`, `params`, in this
order; `origin` and any extra inbound fields are dropped. -/
def cleanReqJson (req : Req) : Json :=
  .obj [(chars "id", req.id), (chars "jsonrpc", req.jsonrpc),
        (chars "method", .str req.method), (chars "params", req.params)]

/-- The outbound request parameters built by `fetchConfigFromReq`. -/
structure FetchParams where
  httpMethod : List Char
  headers : Option (List (List Char × List Char))
  body : Option (List Char)

/-- The outbound URL and parameters. -/
structure FetchConfig where
  fetchUrl : List Char
  fetchParams : FetchParams

/-- `fetchConfigFromReq` (`src/index.js` lines 90-129).  `postMethods` is
modelled from the spec as an abstract fixed allow-list: the file
`./postMethods` it is required from is not part of the sources, and the spec
describes it only as "a fixed allow-list of post methods".  `projectId` is
the credential the chrome wallet callback appends to the base URL. -/
def fetchConfigFromReq (postMethods : List (List Char)) (projectId : List Char)
    (network : List Char) (req : Req) (source : Option (List Char)) : FetchConfig :=
  let requestOrigin := req.origin.getD (chars "internal")
  let fetchUrl := chars "https://" ++ network ++ chars ".infura.io/v3/" ++ projectId
  if req.method ∈ postMethods then
    { fetchUrl := fetchUrl
      fetchParams :=
        { httpMethod := chars "POST"
          headers := some ([(chars "Accept", chars "application/json"),
                            (chars "Content-Type", chars "application/json")]
            ++ (match source with
                | some src => [(chars "Infura-Source", src ++ chars "/" ++ requestOrigin)]
                | none => []))
          body := some (jsonStringify (cleanReqJson req)) } }
  else
    { fetchUrl := fetchUrl ++ chars "/" ++ req.method ++ chars "?params="
        ++ encodeURIComponent (jsonStringify req.params)
      fetchParams :=
        { httpMethod := chars "GET"
          headers := match source with
            | some src => some [(chars "Infura-Source", src ++ chars "/" ++ requestOrigin)]
            | none => none
          body := none } }

/-- The query string of a URL: everything after the last question mark (the
encoder never emits one, so for the URLs built here this is the query in the
ordinary sense). -/
def lastQueryString (url : List Char) : Option (List Char) :=
  if '?' ∈ url then some ((url.reverse.takeWhile (fun c => !(c = '?'))).reverse)
  else none

/-- The value of the `params` query parameter of a URL. -/
def queryParamsValue (url : List Char) : Option (List Char) :=
  match lastQueryString url with
  | none => none
  | some q => if q.take 7 = chars "params=" then some (q.drop 7) else none

/-- The `await` operand between two retry attempts (`src/index.js` lines
46-50): a function expression whose body would build
`new Promise(resolve => setTimeout(resolve, 1000))` — the function object
itself is awaited, it is never invoked. -/
inductive JsAwaitable where
  | promiseSetTimeout (ms : Nat)
  | functionValue

/-- How long `await x` suspends: the timer duration when `x` is a promise
resolved by `setTimeout`, and no time at all when `x` is a plain non-thenable
value such as a function object. -/
def awaitSuspensionMs : JsAwaitable → Nat
  | .promiseSetTimeout ms => ms
  | .functionValue => 0

/-- The awaited operand as written in the source: the function object,
un-invoked.  Had line 46 invoked it (`await (function () {...})()`), the
operand would be `JsAwaitable.promiseSetTimeout 1000`. -/
def retryDelayAwaited : JsAwaitable := .functionValue

/-- The message of the exhausted-retries error (`src/index.js` line 41). -/
def retriesExhaustedMsg (e : JsErr) : List Char :=
  chars "InfuraProvider - cannot complete request, all retries have been exhausted.\nOriginal Error:\n"
    ++ jsErrToString e ++ chars "\n\n"

/-- Terminal states of the retry loop of `createInfuraMiddleware`: a break on
success, a rethrown fatal failure, the exhausted-retries error, or the loop
running out of iterations without an attempt (possible only when the loop
bound is below the starting attempt number).  Each state records the number
of the attempt on which it was reached and the total time the loop actually
suspended between attempts. -/
inductive Outcome where
  | success (res : Res) (attempts : Nat) (delayMs : Nat)
  | fatal (e : JsErr) (attempts : Nat) (delayMs : Nat)
  | exhausted (msg : List Char) (attempts : Nat) (delayMs : Nat)
  | fellThrough (res : Res) (delayMs : Nat)

/-- The retry loop of `createInfuraMiddleware` (`src/index.js` lines 28-52),
from a given attempt number: run `step` (one `performFetch`, or whatever the
transport does on that attempt); break on normal return; rethrow a
non-retriable failure; when no attempts remain wrap the failure into the
exhausted-retries error; otherwise await the delay operand and loop. -/
def retryLoopFrom (maxAttempts : Nat) (step : Nat → Res → Except JsErr Unit × Res)
    (attempt : Nat) (res : Res) (delayMs : Nat) : Outcome :=
  if maxAttempts < attempt then .fellThrough res delayMs
  else
    match step attempt res with
    | (.ok _, res2) => .success res2 attempt delayMs
    | (.error e, res2) =>
      if canRetry e = false then .fatal e attempt delayMs
      else if maxAttempts - attempt = 0 then
        .exhausted (retriesExhaustedMsg e) attempt delayMs
      else
        retryLoopFrom maxAttempts step (attempt + 1) res2
          (delayMs + awaitSuspensionMs retryDelayAwaited)
termination_by maxAttempts + 1 - attempt
decreasing_by omega

/-- The middleware handler body for one request: the retry loop started at
attempt 1 with no time spent. -/
def handleRequest (maxAttempts : Nat) (step : Nat → Res → Except JsErr Unit × Res)
    (res : Res) : Outcome :=
  retryLoopFrom maxAttempts step 1 res 0

/-- `opts.maxAttempts || 5` (`src/index.js` line 20): a missing or falsy
(zero) value falls back to the default 5. -/
def resolveMaxAttempts (optsMaxAttempts : Option Int) : Int :=
  match optsMaxAttempts with
  | none => 5
  | some n => if n = 0 then 5 else n

/-- The construction-time validation of `createInfuraMiddleware`
(`src/index.js` lines 18-25) restricted to what it computes from
`opts.maxAttempts`: the resolved value, or the configuration error thrown
when the resolved value is falsy. -/
def createInfuraMiddlewareConfig (optsMaxAttempts : Option Int) : Except (List Char) Int :=
  let maxAttempts := resolveMaxAttempts optsMaxAttempts
  if maxAttempts = 0 then
    .error (chars "Invalid value for maxAttempts")
  else .ok maxAttempts

theorem hexDigitUpper_ne_question (v : Nat) (h : v < 16) : ¬ hexDigitUpper v = '?' := by
  intro he
  have h63 : (hexDigitUpper v).toNat = 63 := by rw [he]; decide
  by_cases h10 : v < 10
  · rw [hexDigitUpper, if_pos h10, char_toNat_ofNat (48 + v) (by omega)] at h63
    omega
  · rw [hexDigitUpper, if_neg h10, char_toNat_ofNat (55 + v) (by omega)] at h63
    omega

theorem utf8Bytes_lt_256 (n : Nat) (hn : n < 1114112) : ∀ b ∈ utf8Bytes n, b < 256 := by
  intro b hb
  rw [utf8Bytes] at hb
  split at hb
  · simp at hb; omega
  · split at hb
    · simp at hb; rcases hb with h | h <;> omega
    · split at hb
      · simp at hb; rcases hb with h | h | h <;> omega
      · simp at hb; rcases hb with h | h | h | h <;> omega

theorem question_not_mem_pctBytes (bs : List Nat) (hbs : ∀ b ∈ bs, b < 256) :
    ¬ '?' ∈ pctBytes bs := by
  induction bs with
  | nil => simp [pctBytes]
  | cons b bs ih =>
    have hb : b < 256 := hbs b (List.mem_cons_self b bs)
    simp only [pctBytes, pctEncodeByte, List.cons_append, List.nil_append, List.mem_cons]
    intro hmem
    rcases hmem with h | h | h | h
    · exact absurd h.symm (by decide)
    · exact hexDigitUpper_ne_question (b / 16) (by omega) h.symm
    · exact hexDigitUpper_ne_question (b % 16) (by omega) h.symm
    · exact ih (fun x hx => hbs x (List.mem_cons_of_mem b hx)) h

theorem question_not_mem_encode (s : List Char) : ¬ '?' ∈ encodeURIComponent s := by
  induction s with
  | nil => simp [encodeURIComponent]
  | cons c cs ih =>
    rw [encodeURIComponent]
    intro hmem
    rcases List.mem_append.mp hmem with h | h
    · rw [encChar] at h
      split at h
      · simp only [List.mem_singleton] at h
        subst h
        simp +decide [unreservedChar] at *
      · exact question_not_mem_pctBytes _ (utf8Bytes_lt_256 c.toNat (char_toNat_lt c)) h
    · exact ih h

theorem lastQueryString_append (pre suffix : List Char) (hs : ¬ '?' ∈ suffix) :
    lastQueryString (pre ++ '?' :: suffix) = some suffix := by
  rw [lastQueryString, if_pos (by simp)]
  congr 1
  have hrev : (pre ++ '?' :: suffix).reverse = suffix.reverse ++ '?' :: pre.reverse := by
    simp
  rw [hrev, takeWhile_append_all]
  · simp
  · intro c hc
    simp only [List.mem_reverse] at hc
    simp only [Bool.not_eq_true', decide_eq_false_iff_not]
    intro he
    subst he
    exact hs hc
  · simp

theorem queryParamsValue_of_url (pre enc : List Char) (henc : ¬ '?' ∈ enc) :
    queryParamsValue (pre ++ chars "?params=" ++ enc) = some enc := by
  have hsplit : pre ++ chars "?params=" ++ enc = pre ++ '?' :: (chars "params=" ++ enc) := by
    simp [chars]
  rw [hsplit, queryParamsValue, lastQueryString_append pre _ (by
    intro hmem
    rcases List.mem_append.mp hmem with h | h
    · revert h; decide
    · exact henc h)]
  have h7 : (chars "params=" ++ enc).take 7 = chars "params=" := by
    rw [show (7 : Nat) = (chars "params=").length from by decide, List.take_left]
  have h7d : (chars "params=" ++ enc).drop 7 = enc := by
    rw [show (7 : Nat) = (chars "params=").length from by decide, List.drop_left]
  simp only [h7, h7d, reduceIte]

theorem infix_append_pre (p pre body : List Char)
    (hcond : ∀ i, i < pre.length → ¬ (pre.drop i <+: p) ∧ ¬ (p <+: pre.drop i)) :
    p <:+: pre ++ body ↔ p <:+: body := by
  constructor
  · rintro ⟨s, t, hst⟩
    by_cases hsl : pre.length ≤ s.length
    · refine ⟨s.drop pre.length, t, ?_⟩
      have hdrop := congrArg (List.drop pre.length) hst
      rw [List.drop_left, List.append_assoc, List.drop_append_of_le_length hsl,
        ← List.append_assoc] at hdrop
      exact hdrop
    · exfalso
      push_neg at hsl
      have hi : s.length < pre.length := hsl
      have hkey : pre.drop s.length ++ body = p ++ t := by
        have h2 : (s ++ p ++ t).drop s.length = p ++ t := by
          rw [List.append_assoc, List.drop_left]
        rw [show pre.drop s.length ++ body = (pre ++ body).drop s.length from
          (List.drop_append_of_le_length (by omega)).symm, ← hst, h2]
      by_cases hpl : p.length ≤ (pre.drop s.length).length
      · have hpp : p <+: pre.drop s.length := by
          have ht : (pre.drop s.length ++ body).take p.length = p := by
            rw [hkey, List.take_append_of_le_length (by simp), List.take_length]
          rw [List.take_append_of_le_length hpl] at ht
          rw [← ht]
          exact List.take_prefix p.length (pre.drop s.length)
        exact (hcond s.length hi).2 hpp
      · have hpp : pre.drop s.length <+: p := by
          push_neg at hpl
          have ht : (p ++ t).take (pre.drop s.length).length = pre.drop s.length := by
            rw [← hkey, List.take_left]
          rw [List.take_append_of_le_length (by omega)] at ht
          rw [← ht]
          exact List.take_prefix _ p
        exact (hcond s.length hi).1 hpp
  · rintro ⟨s, t, hst⟩
    exact ⟨pre ++ s, t, by rw [← hst]; simp⟩

theorem canRetry_internal_iff (body : List Char) :
    canRetry (.internal body) = true ↔ ∃ p ∈ RETRIABLE_ERRORS, p <:+: body := by
  have hside : ∀ p ∈ RETRIABLE_ERRORS,
      (p <:+: chars "Error: " ++ body ↔ p <:+: body) := by
    intro p hp
    refine infix_append_pre p (chars "Error: ") body ?_
    simp only [RETRIABLE_ERRORS, List.mem_cons, List.not_mem_nil, or_false] at hp
    rcases hp with h | h | h | h <;> subst h <;> decide
  simp only [canRetry, jsErrToString, List.any_eq_true, decide_eq_true_eq]
  constructor
  · rintro ⟨p, hp, hinf⟩
    exact ⟨p, hp, (hside p hp).mp hinf⟩
  · rintro ⟨p, hp, hinf⟩
    exact ⟨p, hp, (hside p hp).mpr hinf⟩

theorem awaitSuspension_retryDelay : awaitSuspensionMs retryDelayAwaited = 0 := rfl

theorem retryLoop_exhausts (maxA : Nat) (e : JsErr) (step : Nat → Res → Except JsErr Unit × Res)
    (hstep : ∀ n r, step n r = (.error e, r)) (hcr : canRetry e = true) :
    ∀ (k attempt : Nat) (res : Res) (d : Nat), maxA - attempt = k → attempt ≤ maxA →
      retryLoopFrom maxA step attempt res d = .exhausted (retriesExhaustedMsg e) maxA d := by
  intro k
  induction k with
  | zero =>
    intro attempt res d hk hle
    have hatt : attempt = maxA := by omega
    subst hatt
    unfold retryLoopFrom
    rw [if_neg (by omega), hstep attempt res]
    simp [hcr, hk]
  | succ k ih =>
    intro attempt res d hk hle
    unfold retryLoopFrom
    rw [if_neg (by omega), hstep attempt res]
    simp only [hcr, hk, awaitSuspension_retryDelay, Nat.add_zero, reduceIte]
    have h1 : ((true = false) = False) := by simp
    simp only [h1, if_false, if_neg (by omega : ¬ (k + 1 = 0))]
    exact ih (attempt + 1) res d (by omega) (by omega)

/-- A sample request used by the concrete witnesses. -/
def sampleReq : Req :=
  { id := .num 1
    jsonrpc := .str (chars "2.0")
    method := chars "eth_getBlockByNumber"
    params := .arr [.str (chars "0x1b4"), .bool true]
    origin := none
    extras := [(chars "sessionToken", .str (chars "abc"))] }

/-- An empty response envelope used by the concrete witnesses. -/
def emptyRes : Res := { result := none, error := none }

/-- C1: the spec claims that constructing the middleware with
`maxAttempts = 0` (or any falsy value) raises a configuration error at
construction time.  The code evaluated at that input does the opposite:
`opts.maxAttempts || 5` replaces every falsy value by the default 5 before
the `if (!maxAttempts) throw` check, so the check can never fire and
construction succeeds with `maxAttempts = 5`. -/
theorem C1_falsy_maxAttempts_constructs_silently :
    createInfuraMiddlewareConfig (some 0) = .ok 5
    ∧ createInfuraMiddlewareConfig none = .ok 5
    ∧ createInfuraMiddlewareConfig (some 7) = .ok 7 :=
  ⟨rfl, rfl, rfl⟩

/-- C2: the spec claims that between a retriable failure and the next attempt
the driver suspends for a real 1000 ms.  In the code the `await` operand at
lines 46-50 is the function expression itself — it is never invoked, so no
`setTimeout` is ever scheduled and `await` resumes immediately: the awaited
value suspends 0 ms, and a two-attempt run that retries once accumulates a
total inter-attempt delay of 0 ms rather than 1000 ms. -/
theorem C2_retry_delay_is_noop :
    awaitSuspensionMs retryDelayAwaited = 0
    ∧ awaitSuspensionMs (.promiseSetTimeout 1000) = 1000
    ∧ retryLoopFrom 2
        (fun n r => if n = 1 then (.error (.plain (chars "connect ETIMEDOUT")), r)
          else (.ok (), r))
        1 emptyRes 0
      = .success emptyRes 2 0 := by
  refine ⟨rfl, rfl, ?_⟩
  unfold retryLoopFrom
  simp +decide only [reduceIte]
  unfold retryLoopFrom
  simp +decide only [reduceIte]
  rfl

/-- C3: for a request with method `eth_getBlockByNumber`, an HTTP 2xx status
and the raw body text exactly `Not Found`, the response result is set to
null (a JSON null, not an absent field), the error field is left untouched,
no failure is raised, and no JSON parsing is attempted — the outcome is the
same for every parse function. -/
theorem C3_getBlockByNumber_notFound (parse : List Char → Option Json) (req : Req)
    (resp : HttpResponse) (res : Res)
    (hm : req.method = chars "eth_getBlockByNumber")
    (hok : 200 ≤ resp.status ∧ resp.status ≤ 299)
    (hb : resp.body = chars "Not Found") :
    performFetchRun parse req resp res = (.ok (), { res with result := some Json.null })
    ∧ (performFetchRun parse req resp res).2.error = res.error := by
  have hro : responseOk resp = true := by
    simp only [responseOk, Bool.and_eq_true, decide_eq_true_eq]
    omega
  unfold performFetchRun
  rw [hro]
  simp [hm, hb]

theorem C3_getBlockByNumber_notFound_witness :
    performFetchRun jsonParse sampleReq { status := 200, body := chars "Not Found" } emptyRes
      = (.ok (), { emptyRes with result := some Json.null })
    ∧ (performFetchRun jsonParse sampleReq { status := 200, body := chars "Not Found" }
        emptyRes).2.error = emptyRes.error :=
  C3_getBlockByNumber_notFound jsonParse sampleReq _ emptyRes rfl (by decide) rfl

/-- C10: whenever one `performFetch` attempt raises — any non-2xx status
branch, or a JSON parse failure of the body — the response envelope leaves
the attempt exactly as it entered it: the envelope is written only by an
attempt that completes normally. -/
theorem C10_failed_attempt_preserves_envelope (parse : List Char → Option Json) (req : Req)
    (resp : HttpResponse) (res : Res) (e : JsErr)
    (h : (performFetchRun parse req resp res).1 = .error e) :
    (performFetchRun parse req resp res).2 = res := by
  unfold performFetchRun at h ⊢
  split at h
  · rename_i hc1
    rw [if_pos hc1]
    split <;> rfl
  · rename_i hc1
    rw [if_neg hc1]
    split at h
    · simp at h
    · rename_i hc2
      rw [if_neg hc2]
      split at h
      · rfl
      · simp at h

theorem C10_failed_attempt_preserves_envelope_witness :
    (performFetchRun jsonParse sampleReq { status := 500, body := chars "boom" }
        { result := some (.num 3), error := none }).2
      = { result := some (.num 3), error := none } :=
  C10_failed_attempt_preserves_envelope jsonParse sampleReq
    { status := 500, body := chars "boom" } { result := some (.num 3), error := none }
    (.internal (chars "boom")) rfl

/-- C8: classification of non-2xx HTTP responses by `performFetch`: 405
becomes the fatal method-not-supported error; 418 becomes the rate-limited
error with its fixed message; 503 and 504 become the gateway-timeout error
whose fixed message contains the retriable phrase `Gateway timeout`; every
other non-2xx status becomes a generic internal error wrapping the raw body
text, retriable exactly when the body text contains one of the retriable
phrases. -/
theorem C8_status_classification (parse : List Char → Option Json) (req : Req)
    (res : Res) (resp : HttpResponse)
    (hnok : responseOk resp = false) :
    (resp.status = 405 →
      performFetchRun parse req resp res = (.error .methodNotFound, res)
      ∧ canRetry .methodNotFound = false)
    ∧ (resp.status = 418 →
      performFetchRun parse req resp res
        = (.error (.internal (chars "Request is being rate limited.")), res))
    ∧ ((resp.status = 503 ∨ resp.status = 504) →
      performFetchRun parse req resp res
        = (.error (.internal (chars "Gateway timeout, request took too long to process.")), res)
      ∧ chars "Gateway timeout"
          <:+: chars "Gateway timeout, request took too long to process."
      ∧ canRetry (.internal (chars "Gateway timeout, request took too long to process."))
          = true)
    ∧ (resp.status ≠ 405 → resp.status ≠ 418 → resp.status ≠ 503 → resp.status ≠ 504 →
      performFetchRun parse req resp res = (.error (.internal resp.body), res)
      ∧ (canRetry (.internal resp.body) = true ↔ ∃ p ∈ RETRIABLE_ERRORS, p <:+: resp.body)) := by
  refine ⟨?_, ?_, ?_, ?_⟩
  · intro h
    unfold performFetchRun
    rw [hnok, h]
    exact ⟨by simp, by decide⟩
  · intro h
    unfold performFetchRun
    rw [hnok, h]
    simp
  · intro h
    refine ⟨?_, by decide, by decide⟩
    unfold performFetchRun
    rcases h with h | h <;> rw [hnok, h] <;> simp
  · intro h4 h18 h3 h54
    refine ⟨?_, canRetry_internal_iff resp.body⟩
    unfold performFetchRun
    rw [hnok]
    simp only [reduceIte]

theorem C8_status_classification_witness :
    responseOk { status := 500, body := chars "nope ETIMEDOUT nope" } = false
    ∧ ((500 : Nat) ≠ 405 ∧ (500 : Nat) ≠ 418 ∧ (500 : Nat) ≠ 503 ∧ (500 : Nat) ≠ 504)
    ∧ (performFetchRun jsonParse sampleReq { status := 500, body := chars "nope ETIMEDOUT nope" }
          emptyRes
        = (.error (.internal (chars "nope ETIMEDOUT nope")), emptyRes)
      ∧ (canRetry (.internal (chars "nope ETIMEDOUT nope")) = true
          ↔ ∃ p ∈ RETRIABLE_ERRORS, p <:+: chars "nope ETIMEDOUT nope")) :=
  ⟨by decide, ⟨by decide, by decide, by decide, by decide⟩,
    (C8_status_classification jsonParse sampleReq emptyRes
      { status := 500, body := chars "nope ETIMEDOUT nope" } (by decide)).2.2.2
      (by decide) (by decide) (by decide) (by decide)⟩

/-- C4: for every request whose method is on the POST allow-list, the
outbound body built by `fetchConfigFromReq` is valid JSON whose fields are
exactly `id`, `jsonrpc`, `method`, `params` — in particular none of the
inbound request's extra fields appear, whatever they are. -/
theorem C4_post_body_exact_fields (postMethods : List (List Char))
    (projectId network : List Char) (req : Req) (source : Option (List Char))
    (hpost : req.method ∈ postMethods) :
    ∃ body,
      (fetchConfigFromReq postMethods projectId network req source).fetchParams.body = some body
      ∧ jsonParse body = some (Json.obj [(chars "id", req.id), (chars "jsonrpc", req.jsonrpc),
          (chars "method", .str req.method), (chars "params", req.params)])
      ∧ [(chars "id", req.id), (chars "jsonrpc", req.jsonrpc),
          (chars "method", Json.str req.method), (chars "params", req.params)].map Prod.fst
        = [chars "id", chars "jsonrpc", chars "method", chars "params"] := by
  refine ⟨jsonStringify (cleanReqJson req), ?_, ?_, by simp⟩
  · unfold fetchConfigFromReq
    rw [if_pos hpost]
  · rw [jsonParse_stringify (cleanReqJson req)]
    rfl

theorem C4_post_body_exact_fields_witness :
    ∃ body,
      (fetchConfigFromReq [chars "eth_sendRawTransaction"] (chars "pid") (chars "mainnet")
        { sampleReq with method := chars "eth_sendRawTransaction" } none).fetchParams.body
        = some body
      ∧ jsonParse body = some (Json.obj [(chars "id", sampleReq.id),
          (chars "jsonrpc", sampleReq.jsonrpc),
          (chars "method", .str (chars "eth_sendRawTransaction")),
          (chars "params", sampleReq.params)])
      ∧ [(chars "id", sampleReq.id), (chars "jsonrpc", sampleReq.jsonrpc),
          (chars "method", Json.str (chars "eth_sendRawTransaction")),
          (chars "params", sampleReq.params)].map Prod.fst
        = [chars "id", chars "jsonrpc", chars "method", chars "params"] :=
  C4_post_body_exact_fields [chars "eth_sendRawTransaction"] (chars "pid") (chars "mainnet")
    { sampleReq with method := chars "eth_sendRawTransaction" } none (by decide)

/-- C5: for every request whose method is not on the POST allow-list, the
`params` value of the query string of the URL built by `fetchConfigFromReq`,
URL-percent-decoded and then JSON-parsed, is exactly the original params
value (round-trip law). -/
theorem C5_get_query_roundtrip (postMethods : List (List Char))
    (projectId network : List Char) (req : Req) (source : Option (List Char))
    (hget : ¬ req.method ∈ postMethods) :
    ∃ v decoded,
      queryParamsValue (fetchConfigFromReq postMethods projectId network req source).fetchUrl
        = some v
      ∧ decodeURIComponent v = some decoded
      ∧ jsonParse decoded = some req.params := by
  refine ⟨encodeURIComponent (jsonStringify req.params), jsonStringify req.params, ?_, ?_, ?_⟩
  · unfold fetchConfigFromReq
    rw [if_neg hget]
    have hshape : (chars "https://" ++ network ++ chars ".infura.io/v3/" ++ projectId)
          ++ chars "/" ++ req.method ++ chars "?params="
          ++ encodeURIComponent (jsonStringify req.params)
        = ((chars "https://" ++ network ++ chars ".infura.io/v3/" ++ projectId)
            ++ chars "/" ++ req.method) ++ chars "?params="
          ++ encodeURIComponent (jsonStringify req.params) := by
      simp [List.append_assoc]
    simp only []
    rw [hshape]
    exact queryParamsValue_of_url _ _ (question_not_mem_encode (jsonStringify req.params))
  · exact decode_encode (jsonStringify req.params)
  · exact jsonParse_stringify req.params

theorem C5_get_query_roundtrip_witness :
    ∃ v decoded,
      queryParamsValue (fetchConfigFromReq [chars "eth_sendRawTransaction"] (chars "pid")
          (chars "mainnet") sampleReq (some (chars "brave"))).fetchUrl = some v
      ∧ decodeURIComponent v = some decoded
      ∧ jsonParse decoded = some sampleReq.params :=
  C5_get_query_roundtrip [chars "eth_sendRawTransaction"] (chars "pid") (chars "mainnet")
    sampleReq (some (chars "brave")) (by decide)

/-- C6: for every `maxAttempts ≥ 1` and every transport failing on every
attempt with an error whose string form contains a retriable phrase, the
adapter performs exactly `maxAttempts` attempts and then raises the
exhausted-retries error, whose message names the originating component
(`InfuraProvider`) and embeds the original error's string form. -/
theorem C6_retriable_error_exhausts_all_attempts (maxAttempts : Nat) (e : JsErr)
    (step : Nat → Res → Except JsErr Unit × Res) (res : Res)
    (hmax : 1 ≤ maxAttempts)
    (hstep : ∀ n r, step n r = (.error e, r))
    (hret : ∃ p ∈ RETRIABLE_ERRORS, p <:+: jsErrToString e) :
    handleRequest maxAttempts step res
      = .exhausted (retriesExhaustedMsg e) maxAttempts 0
    ∧ jsErrToString e <:+: retriesExhaustedMsg e
    ∧ chars "InfuraProvider" <:+: retriesExhaustedMsg e := by
  have hcr : canRetry e = true := by
    simp only [canRetry, List.any_eq_true, decide_eq_true_eq]
    exact hret
  refine ⟨?_, ?_, ?_⟩
  · exact retryLoop_exhausts maxAttempts e step hstep hcr (maxAttempts - 1) 1 res 0 rfl hmax
  · exact ⟨chars "InfuraProvider - cannot complete request, all retries have been exhausted.\nOriginal Error:\n",
      chars "\n\n", rfl⟩
  · have hsplit : chars "InfuraProvider - cannot complete request, all retries have been exhausted.\nOriginal Error:\n"
        = chars "InfuraProvider"
          ++ chars " - cannot complete request, all retries have been exhausted.\nOriginal Error:\n" := by
      decide
    refine ⟨[], chars " - cannot complete request, all retries have been exhausted.\nOriginal Error:\n"
      ++ jsErrToString e ++ chars "\n\n", ?_⟩
    unfold retriesExhaustedMsg
    rw [hsplit]
    simp [List.append_assoc]

theorem C6_retriable_error_exhausts_all_attempts_witness :
    handleRequest 2 (fun _ r => (.error (.plain (chars "connect ETIMEDOUT")), r)) emptyRes
      = .exhausted (retriesExhaustedMsg (.plain (chars "connect ETIMEDOUT"))) 2 0
    ∧ jsErrToString (.plain (chars "connect ETIMEDOUT"))
        <:+: retriesExhaustedMsg (.plain (chars "connect ETIMEDOUT"))
    ∧ chars "InfuraProvider" <:+: retriesExhaustedMsg (.plain (chars "connect ETIMEDOUT")) :=
  C6_retriable_error_exhausts_all_attempts 2 (.plain (chars "connect ETIMEDOUT"))
    (fun _ r => (.error (.plain (chars "connect ETIMEDOUT")), r)) emptyRes
    (by decide) (fun _ _ => rfl) ⟨chars "ETIMEDOUT", by decide, by decide⟩

/-- C7: a transport failure whose string form contains none of the retriable
phrases is propagated unchanged after exactly one attempt, for every
`maxAttempts ≥ 1`. -/
theorem C7_nonretriable_propagates_after_one_attempt (maxAttempts : Nat) (e : JsErr)
    (step : Nat → Res → Except JsErr Unit × Res) (res res2 : Res)
    (hmax : 1 ≤ maxAttempts)
    (hstep : step 1 res = (.error e, res2))
    (hnr : ∀ p ∈ RETRIABLE_ERRORS, ¬ p <:+: jsErrToString e) :
    handleRequest maxAttempts step res = .fatal e 1 0 := by
  have hcr : canRetry e = false := by
    rw [canRetry, List.any_eq_false]
    intro p hp
    simp only [decide_eq_true_eq]
    exact hnr p hp
  unfold handleRequest retryLoopFrom
  rw [if_neg (by omega), hstep]
  simp [hcr]

theorem C7_nonretriable_propagates_after_one_attempt_witness :
    handleRequest 5 (fun _ r => (.error (.plain (chars "permission denied")), r)) emptyRes
      = .fatal (.plain (chars "permission denied")) 1 0 :=
  C7_nonretriable_propagates_after_one_attempt 5 (.plain (chars "permission denied"))
    (fun _ r => (.error (.plain (chars "permission denied")), r)) emptyRes emptyRes
    (by decide) rfl (by decide)

/-- C9: with `maxAttempts = 3`, a transport failing retriably on attempts 1
and 2 and succeeding on attempt 3 yields the success envelope after exactly
3 attempts, and no further attempt is made. -/
theorem C9_success_on_third_attempt (step : Nat → Res → Except JsErr Unit × Res)
    (res res3 : Res) (e1 e2 : JsErr)
    (h1 : step 1 res = (.error e1, res))
    (h2 : step 2 res = (.error e2, res))
    (h3 : step 3 res = (.ok (), res3))
    (hr1 : canRetry e1 = true) (hr2 : canRetry e2 = true) :
    handleRequest 3 step res = .success res3 3 0 := by
  unfold handleRequest
  unfold retryLoopFrom
  rw [if_neg (by omega), h1]
  simp +decide only [hr1, reduceIte, awaitSuspension_retryDelay, Nat.add_zero]
  unfold retryLoopFrom
  rw [if_neg (by omega), h2]
  simp +decide only [hr2, reduceIte, awaitSuspension_retryDelay, Nat.add_zero]
  unfold retryLoopFrom
  rw [if_neg (by omega), h3]

theorem C9_success_on_third_attempt_witness :
    handleRequest 3
      (fun n r => performFetchRun jsonParse sampleReq
        (if n = 3 then { status := 200, body := chars "Not Found" }
          else { status := 504, body := [] }) r)
      emptyRes
      = .success { result := some Json.null, error := none } 3 0 :=
  C9_success_on_third_attempt _ emptyRes { result := some Json.null, error := none }
    (.internal (chars "Gateway timeout, request took too long to process."))
    (.internal (chars "Gateway timeout, request took too long to process."))
    rfl rfl rfl (by decide) (by decide)
